import Mathlib

/-!
Verification development for the docker-port-viewer client application.

The definitions below are a shallow embedding of the logic in
src/src/App.tsx: the stored-preference loader, the next-available-port
computation, the filter/sort derivation, the embedded-navigation
controller, the container fetch state transition, and the port-binding
deduplication filter.  JavaScript numbers that only ever hold integers
are modelled as Int (or Nat where the code guarantees non-negativity),
optional values as Option, and the mutable component state as explicit
state records.
-/

namespace DockerPortViewer

/-- Modelled from the spec: a PortBinding record from src/src/types.ts
(the types module is not part of the provided sources); private port
number, optional public port number, protocol tag. -/
structure Port where
  PrivatePort : Nat
  PublicPort : Option Nat
  Type_ : String
deriving DecidableEq

/-- Modelled from the spec: a ContainerRecord from src/src/types.ts
(the types module is not part of the provided sources); identifier,
display names, image reference, lifecycle state, creation timestamp in
epoch seconds, port bindings. -/
structure DockerContainer where
  Id : String
  Names : List String
  Image : String
  State : String
  Created : Int
  Ports : List Port
deriving DecidableEq

/-- JavaScript parseInt with radix 10: skip leading whitespace, read an
optional sign, then the longest prefix of decimal digits; none when no
digit is found (NaN). -/
def parseIntJS (s : String) : Option Int :=
  let cs := s.data.dropWhile fun c => c.isWhitespace
  let signAndRest : Int × List Char :=
    match cs with
    | '-' :: rest => (-1, rest)
    | '+' :: rest => (1, rest)
    | rest => (1, rest)
  let digits := signAndRest.2.takeWhile fun c => c.isDigit
  if digits.isEmpty then none
  else some (signAndRest.1 * ((digits.foldl (fun a c => a * 10 + (c.toNat - 48)) 0 : Nat) : Int))

/-- Embedding of getStoredPortOrDefault (App.tsx lines 43-51).  The
stored slot is an Option String (localStorage.getItem returns null when
the key is absent); the bang-negation check in the source also treats
the empty string as absent. -/
def getStoredPortOrDefault (stored : Option String) (defaultValue : Int) : Int :=
  match stored with
  | none => defaultValue
  | some s =>
    if s = "" then defaultValue
    else
      match parseIntJS s with
      | none => defaultValue
      | some value => if 1 ≤ value ∧ value ≤ 65535 then value else defaultValue

/-- Initializer of the minPort state (App.tsx lines 72-74): stored slot
with default 1024. -/
def initMinPort (stored : Option String) : Int :=
  getStoredPortOrDefault stored 1024

/-- Initializer of the maxPort state (App.tsx lines 75-77): stored slot
with default 49151. -/
def initMaxPort (stored : Option String) : Int :=
  getStoredPortOrDefault stored 49151

/-- Clamp of one endpoint of the port range (App.tsx lines 88-89):
Math.max(1, Math.min(65535, p)).  The result lies in [1, 65535], so it
is returned as a Nat. -/
def clampPort (p : Int) : Nat :=
  (max 1 (min 65535 p)).toNat

/-- Lower bound of the effective range (App.tsx line 90). -/
def actualMinPort (minPort maxPort : Int) : Nat :=
  min (clampPort minPort) (clampPort maxPort)

/-- Upper bound of the effective range (App.tsx line 91). -/
def actualMaxPort (minPort maxPort : Int) : Nat :=
  max (clampPort minPort) (clampPort maxPort)

/-- Collection of used public ports (App.tsx lines 94-100): every
binding whose PublicPort is truthy (present and nonzero) and lies in
[lo, hi] contributes its public port. -/
def usedPorts (containers : List DockerContainer) (lo hi : Nat) : List Nat :=
  containers.flatMap fun c =>
    c.Ports.filterMap fun port =>
      match port.PublicPort with
      | some pp => if pp ≠ 0 ∧ lo ≤ pp ∧ pp ≤ hi then some pp else none
      | none => none

/-- Ascending scan of the for loop (App.tsx lines 103-108): starting at
lo, over count candidates, return the first port not in the used list. -/
def scanFree (used : List Nat) : Nat → Nat → Option Nat
  | _, 0 => none
  | lo, n + 1 => if used.contains lo then scanFree used (lo + 1) n else some lo

/-- Embedding of the next-available-port effect (App.tsx lines 84-112):
clamp both endpoints, reorder them, collect the in-range public ports,
scan the range ascending; none models the null result. -/
def nextAvailablePort (containers : List DockerContainer) (minPort maxPort : Int) : Option Nat :=
  let lo := actualMinPort minPort maxPort
  let hi := actualMaxPort minPort maxPort
  scanFree (usedPorts containers lo hi) lo (hi + 1 - lo)

/-- Predicate of the spec: some container has a binding whose public
port equals q. -/
def publiclyBound (containers : List DockerContainer) (q : Nat) : Prop :=
  ∃ c ∈ containers, ∃ b ∈ c.Ports, b.PublicPort = some q

/-- Sort options of the dashboard (App.tsx line 41). -/
inductive SortOption
  | nameAsc
  | nameDesc
  | createdAsc
  | createdDesc
deriving DecidableEq

/-- Check that the pattern occurs at the start of the character list;
helper for the JavaScript String.prototype.includes model. -/
def listStartsWith : List Char → List Char → Bool
  | [], _ => true
  | _ :: _, [] => false
  | p :: ps, c :: cs => p == c && listStartsWith ps cs

/-- JavaScript String.prototype.includes on character lists: the
pattern occurs contiguously somewhere in the list (the empty pattern
always occurs). -/
def listContainsSub : List Char → List Char → Bool
  | [], pat => pat.isEmpty
  | c :: cs, pat => listStartsWith pat (c :: cs) || listContainsSub cs pat

/-- JavaScript String.prototype.toLowerCase, modelled on the character
list of the string (ASCII case mapping). -/
def jsToLower (s : String) : List Char :=
  s.data.map Char.toLower

/-- JavaScript String.prototype.trim, modelled on the character list of
the string: drop whitespace from both ends. -/
def jsTrim (s : String) : List Char :=
  ((s.data.dropWhile fun c => c.isWhitespace).reverse.dropWhile fun c => c.isWhitespace).reverse

/-- Filter predicate (App.tsx lines 118-122): some name of the
container contains the search term as a case-insensitive substring. -/
def containerMatches (searchTerm : String) (c : DockerContainer) : Bool :=
  c.Names.any fun name => listContainsSub (jsToLower name) (jsToLower searchTerm)

/-- Filter step of the filter/sort effect (App.tsx lines 115-123):
apply the name filter only when the search term does not trim to the
empty string. -/
def filterStep (containers : List DockerContainer) (searchTerm : String) : List DockerContainer :=
  if jsTrim searchTerm ≠ [] then containers.filter (containerMatches searchTerm) else containers

/-- Sort comparator (App.tsx lines 125-138).  localeCompare is
locale-dependent, so it is taken as a parameter lc; the created modes
compare the numeric creation timestamps. -/
def sortComparator (lc : String → String → Int) (o : SortOption) (a b : DockerContainer) : Int :=
  match o with
  | .nameAsc => lc (a.Names.headD "") (b.Names.headD "")
  | .nameDesc => lc (b.Names.headD "") (a.Names.headD "")
  | .createdAsc => b.Created - a.Created
  | .createdDesc => a.Created - b.Created

/-- Array.prototype.sort with a comparator, modelled as a stable sort
by the relation comparator value at most zero. -/
def sortStep (lc : String → String → Int) (o : SortOption) (l : List DockerContainer) : List DockerContainer :=
  List.insertionSort (fun a b => sortComparator lc o a b ≤ 0) l

/-- Embedding of the filter/sort effect (App.tsx lines 114-141) as a
function producing the pair (containers state after the effect,
filteredContainers display state).  When the search term trims to the
empty string the source passes the raw state array itself to the
in-place sort, so the raw state is the sorted list in that branch. -/
def filterSortEffect (lc : String → String → Int) (containers : List DockerContainer)
    (searchTerm : String) (o : SortOption) : List DockerContainer × List DockerContainer :=
  let display := sortStep lc o (filterStep containers searchTerm)
  if jsTrim searchTerm ≠ [] then (containers, display) else (display, display)

/-- Navigation-related component state (App.tsx lines 65-68):
currentUrl, iframeKey, iframeHistory, historyIndex. -/
structure AppNavState where
  currentUrl : Option String
  iframeKey : Nat
  iframeHistory : List String
  historyIndex : Int
deriving DecidableEq

/-- Initial navigation state: no URL, key 0, empty history, index -1. -/
def initialNavState : AppNavState :=
  { currentUrl := none, iframeKey := 0, iframeHistory := [], historyIndex := -1 }

/-- JavaScript Array.prototype.slice(0, e) on a list of strings: a
negative end counts from the end of the array. -/
def jsSliceTo (l : List String) (e : Int) : List String :=
  if e < 0 then l.take ((l.length : Int) + e).toNat else l.take e.toNat

/-- JavaScript array indexing on a list of strings: out-of-bounds or
negative indices yield undefined, modelled as none. -/
def jsGetElem (l : List String) (i : Int) : Option String :=
  if i < 0 then none else l[i.toNat]?

/-- Embedding of handleLinkClick (App.tsx lines 176-182): set the
current URL, bump the iframe key, truncate the history to the current
index, append the URL and advance the index. -/
def handleLinkClick (s : AppNavState) (url : String) : AppNavState :=
  { currentUrl := some url
    iframeKey := s.iframeKey + 1
    iframeHistory := jsSliceTo s.iframeHistory (s.historyIndex + 1) ++ [url]
    historyIndex := s.historyIndex + 1 }

/-- Embedding of handleBack (App.tsx lines 184-191): when the index is
positive, step back one entry and show that entry. -/
def handleBack (s : AppNavState) : AppNavState :=
  if 0 < s.historyIndex then
    { s with
      historyIndex := s.historyIndex - 1
      currentUrl := jsGetElem s.iframeHistory (s.historyIndex - 1)
      iframeKey := s.iframeKey + 1 }
  else s

/-- Embedding of handleForward (App.tsx lines 193-200): when the index
is before the last entry, step forward one entry and show it. -/
def handleForward (s : AppNavState) : AppNavState :=
  if s.historyIndex < (s.iframeHistory.length : Int) - 1 then
    { s with
      historyIndex := s.historyIndex + 1
      currentUrl := jsGetElem s.iframeHistory (s.historyIndex + 1)
      iframeKey := s.iframeKey + 1 }
  else s

/-- Embedding of handleRefresh (App.tsx lines 202-204): bump the iframe
key only. -/
def handleRefresh (s : AppNavState) : AppNavState :=
  { s with iframeKey := s.iframeKey + 1 }

/-- Operations of the embedded navigation controller. -/
inductive NavOp
  | navigate (url : String)
  | back
  | forward
  | refresh

/-- Apply one navigation operation to the state. -/
def applyNavOp (s : AppNavState) : NavOp → AppNavState
  | .navigate url => handleLinkClick s url
  | .back => handleBack s
  | .forward => handleForward s
  | .refresh => handleRefresh s

/-- Run a sequence of navigation operations from a state. -/
def runNavOps (s : AppNavState) (ops : List NavOp) : AppNavState :=
  ops.foldl applyNavOp s

/-- Fetch-related component state (App.tsx lines 54-64): container
list, display list, error banner, loading flag. -/
structure FetchState where
  containers : List DockerContainer
  filteredContainers : List DockerContainer
  error : Option String
  loading : Bool
deriving DecidableEq

/-- Initial fetch state: empty lists, no error, loading. -/
def initialFetchState : FetchState :=
  { containers := [], filteredContainers := [], error := none, loading := true }

/-- Outcome of the awaited listing request: a parsed payload, or any
thrown failure (network error, non-2xx, malformed payload). -/
inductive FetchOutcome
  | success (payload : List DockerContainer)
  | failure

/-- Error banner text set by the catch branch (App.tsx line 165). -/
def fetchErrorMessage : String :=
  "Failed to fetch container information. Make sure the Docker socket is accessible."

/-- Embedding of fetchContainers (App.tsx lines 155-170) as a state
transition on its outcome: success replaces both lists with the payload
and clears the error; failure leaves the lists alone and sets the error
banner; loading ends either way. -/
def fetchContainers (s : FetchState) : FetchOutcome → FetchState
  | .success payload =>
    { containers := payload, filteredContainers := payload, error := none, loading := false }
  | .failure =>
    { s with error := some fetchErrorMessage, loading := false }

/-- Duplicate test of the Ports display filter (App.tsx lines 419-422):
both the public and the private port numbers match. -/
def portPairEq (p q : Port) : Bool :=
  (p.PublicPort == q.PublicPort) && (p.PrivatePort == q.PrivatePort)

/-- JavaScript Array.prototype.findIndex: index of the first element
satisfying the predicate, -1 when there is none. -/
def jsFindIndex (pred : Port → Bool) (l : List Port) : Int :=
  match l.findIdx? pred with
  | some i => (i : Int)
  | none => -1

/-- JavaScript Array.prototype.filter with the element index available
to the predicate, starting from a given index. -/
def filterWithIndex (pred : Port → Nat → Bool) : List Port → Nat → List Port
  | [], _ => []
  | p :: ps, i =>
    if pred p i then p :: filterWithIndex pred ps (i + 1) else filterWithIndex pred ps (i + 1)

/-- Embedding of the Ports deduplication filter (App.tsx lines
417-423): keep a binding exactly when its index equals the index of the
first binding with the same public/private pair. -/
def dedupPorts (ports : List Port) : List Port :=
  filterWithIndex (fun port i => jsFindIndex (fun p => portPairEq p port) ports == (i : Int)) ports 0

/-- Key of a port binding for the duplicate test: the pair of public
and private port numbers. -/
def portKey (p : Port) : Option Nat × Nat :=
  (p.PublicPort, p.PrivatePort)

/-- Invariant of the navigation controller: the index stays within
[-1, length - 1], the current URL is absent exactly at index -1, and at
a non-negative index the current URL is the history entry there. -/
def NavInv (s : AppNavState) : Prop :=
  -1 ≤ s.historyIndex ∧
  s.historyIndex ≤ (s.iframeHistory.length : Int) - 1 ∧
  (s.historyIndex = -1 → s.currentUrl = none) ∧
  (0 ≤ s.historyIndex →
    s.currentUrl = s.iframeHistory[s.historyIndex.toNat]? ∧ s.currentUrl.isSome = true)

/-- Sample container of the spec scenarios: one binding publishing
private port 80 on public port 8080. -/
def webContainer : DockerContainer :=
  { Id := "id1", Names := ["/web"], Image := "img", State := "running", Created := 100,
    Ports := [{ PrivatePort := 80, PublicPort := some 8080, Type_ := "tcp" }] }

/-- Sample container named abc with no port bindings. -/
def abcContainer : DockerContainer :=
  { Id := "id2", Names := ["abc"], Image := "img", State := "running", Created := 100,
    Ports := [] }

/-- Sample container with the smaller creation timestamp. -/
def oldContainer : DockerContainer :=
  { Id := "old", Names := ["old"], Image := "img", State := "running", Created := 1,
    Ports := [] }

/-- Sample container with the larger creation timestamp. -/
def newContainer : DockerContainer :=
  { Id := "new", Names := ["new"], Image := "img", State := "running", Created := 2,
    Ports := [] }

/-- Sample duplicated port binding of the spec scenario. -/
def dupBinding : Port :=
  { PrivatePort := 80, PublicPort := some 8080, Type_ := "tcp" }

/-- C7: one successful fetch replaces the whole container list with the
payload and clears the error; one failed fetch leaves the previous list
untouched (empty in the initial state, before any fetch) and sets a
nonempty user-facing error string. -/
theorem fetchContainers_success_failure (s : FetchState) (payload : List DockerContainer) :
    ((fetchContainers s (FetchOutcome.success payload)).containers = payload ∧
      (fetchContainers s (FetchOutcome.success payload)).error = none) ∧
    ((fetchContainers s FetchOutcome.failure).containers = s.containers ∧
      (fetchContainers s FetchOutcome.failure).error = some fetchErrorMessage ∧
      fetchErrorMessage ≠ "") ∧
    initialFetchState.containers = [] := by
  refine ⟨⟨rfl, rfl⟩, ⟨rfl, rfl, ?_⟩, rfl⟩
  decide

/-- C8: a stored numeric preference value is used only when it parses
to an integer in [1, 65535]; in every other case the loader silently
falls back to the documented default, 1024 for the min port and 49151
for the max port; in particular the stored value abc loads as 1024. -/
theorem storedPort_parse_or_default :
    (∀ s v, parseIntJS s = some v → 1 ≤ v → v ≤ 65535 →
      initMinPort (some s) = v ∧ initMaxPort (some s) = v) ∧
    (∀ s, (∀ v, parseIntJS s = some v → v < 1 ∨ 65535 < v) →
      initMinPort (some s) = 1024 ∧ initMaxPort (some s) = 49151) ∧
    (initMinPort none = 1024 ∧ initMaxPort none = 49151) ∧
    initMinPort (some "abc") = 1024 := by
  refine ⟨?_, ?_, ⟨rfl, rfl⟩, by decide⟩
  · intro s v hp h1 h2
    have hs : s ≠ "" := by
      intro h
      rw [h] at hp
      exact Option.noConfusion ((by decide : parseIntJS "" = none) ▸ hp)
    constructor <;>
      simp [initMinPort, initMaxPort, getStoredPortOrDefault, hs, hp, h1, h2]
  · intro s hout
    by_cases hs : s = ""
    · subst hs
      exact ⟨rfl, rfl⟩
    · cases hp : parseIntJS s with
      | none => constructor <;> simp [initMinPort, initMaxPort, getStoredPortOrDefault, hs, hp]
      | some v =>
        have hv := hout v hp
        have hcond : ¬(1 ≤ v ∧ v ≤ 65535) := by omega
        constructor <;>
          simp [initMinPort, initMaxPort, getStoredPortOrDefault, hs, hp, hcond]

/-- Witness for C8 at the concrete stored string 2048. -/
theorem storedPort_parse_or_default_witness :
    initMinPort (some "2048") = 2048 ∧ initMaxPort (some "2048") = 2048 :=
  storedPort_parse_or_default.1 "2048" 2048 (by decide) (by decide) (by decide)

/-- C2: from any state whose index is within [-1, length - 1], Navigate
keeps the first index + 1 history entries, appends the new URL, and
moves the index to the new last position; in particular Navigate a,
Navigate b, Back, Navigate c from the initial state yields history
[a, c] at index 1. -/
theorem handleLinkClick_truncates_and_appends :
    (∀ (s : AppNavState) (u : String),
      -1 ≤ s.historyIndex → s.historyIndex ≤ (s.iframeHistory.length : Int) - 1 →
        (handleLinkClick s u).iframeHistory =
          s.iframeHistory.take (s.historyIndex + 1).toNat ++ [u] ∧
        (handleLinkClick s u).historyIndex =
          ((handleLinkClick s u).iframeHistory.length : Int) - 1) ∧
    (∀ a b c : String,
      (runNavOps initialNavState
        [NavOp.navigate a, NavOp.navigate b, NavOp.back, NavOp.navigate c]).iframeHistory =
          [a, c] ∧
      (runNavOps initialNavState
        [NavOp.navigate a, NavOp.navigate b, NavOp.back, NavOp.navigate c]).historyIndex = 1) := by
  constructor
  · intro s u h1 h2
    have hslice : jsSliceTo s.iframeHistory (s.historyIndex + 1) =
        s.iframeHistory.take (s.historyIndex + 1).toNat := by
      unfold jsSliceTo
      rw [if_neg (by omega)]
    refine ⟨by simp [handleLinkClick, hslice], ?_⟩
    simp only [handleLinkClick, hslice, List.length_append, List.length_take,
      List.length_cons, List.length_nil]
    omega
  · intro a b c
    exact ⟨rfl, rfl⟩

/-- Witness for C2 applied to the state reached after Navigate a,
Navigate b, Back, with index 0 and history of length 2. -/
theorem handleLinkClick_truncates_and_appends_witness :
    (handleLinkClick
        { currentUrl := some "a", iframeKey := 3, iframeHistory := ["a", "b"],
          historyIndex := 0 } "c").iframeHistory =
      ["a", "b"].take ((0 : Int) + 1).toNat ++ ["c"] ∧
    (handleLinkClick
        { currentUrl := some "a", iframeKey := 3, iframeHistory := ["a", "b"],
          historyIndex := 0 } "c").historyIndex =
      (((handleLinkClick
          { currentUrl := some "a", iframeKey := 3, iframeHistory := ["a", "b"],
            historyIndex := 0 } "c").iframeHistory.length : Int)) - 1 :=
  handleLinkClick_truncates_and_appends.1
    { currentUrl := some "a", iframeKey := 3, iframeHistory := ["a", "b"], historyIndex := 0 }
    "c" (by decide) (by decide)

/-- Navigate preserves the navigation invariant. -/
theorem navInv_handleLinkClick (s : AppNavState) (u : String) (h : NavInv s) :
    NavInv (handleLinkClick s u) := by
  obtain ⟨h1, h2, _h3, _h4⟩ := h
  have hslice : jsSliceTo s.iframeHistory (s.historyIndex + 1) =
      s.iframeHistory.take (s.historyIndex + 1).toNat := by
    unfold jsSliceTo
    rw [if_neg (by omega)]
  have hlen : (s.historyIndex + 1).toNat ≤ s.iframeHistory.length := by omega
  refine ⟨by simp [handleLinkClick]; omega, ?_, ?_, ?_⟩
  · simp only [handleLinkClick, hslice, List.length_append, List.length_take,
      List.length_cons, List.length_nil]
    omega
  · intro hcontra
    simp only [handleLinkClick] at hcontra
    omega
  · intro _
    simp only [handleLinkClick, hslice]
    have lenT : (s.iframeHistory.take (s.historyIndex + 1).toNat).length =
        (s.historyIndex + 1).toNat := by
      simp only [List.length_take]
      omega
    constructor
    · rw [List.getElem?_append_right (le_of_eq lenT), lenT]
      simp
    · rfl

/-- Back preserves the navigation invariant. -/
theorem navInv_handleBack (s : AppNavState) (h : NavInv s) : NavInv (handleBack s) := by
  obtain ⟨h1, h2, h3, h4⟩ := h
  unfold handleBack
  by_cases hg : 0 < s.historyIndex
  · rw [if_pos hg]
    have hbound : (s.historyIndex - 1).toNat < s.iframeHistory.length := by omega
    have hget : jsGetElem s.iframeHistory (s.historyIndex - 1) =
        some (s.iframeHistory[(s.historyIndex - 1).toNat]) := by
      unfold jsGetElem
      rw [if_neg (by omega), List.getElem?_eq_getElem hbound]
    refine ⟨by simp; omega, by simp; omega, by intro hcontra; simp at hcontra; omega, ?_⟩
    intro _
    simp only [hget]
    exact ⟨(List.getElem?_eq_getElem hbound).symm, rfl⟩
  · rw [if_neg hg]
    exact ⟨h1, h2, h3, h4⟩

/-- Forward preserves the navigation invariant. -/
theorem navInv_handleForward (s : AppNavState) (h : NavInv s) : NavInv (handleForward s) := by
  obtain ⟨h1, h2, h3, h4⟩ := h
  unfold handleForward
  by_cases hg : s.historyIndex < (s.iframeHistory.length : Int) - 1
  · rw [if_pos hg]
    have hbound : (s.historyIndex + 1).toNat < s.iframeHistory.length := by omega
    have hget : jsGetElem s.iframeHistory (s.historyIndex + 1) =
        some (s.iframeHistory[(s.historyIndex + 1).toNat]) := by
      unfold jsGetElem
      rw [if_neg (by omega), List.getElem?_eq_getElem hbound]
    refine ⟨by simp; omega, by simp; omega, by intro hcontra; simp at hcontra; omega, ?_⟩
    intro _
    simp only [hget]
    exact ⟨(List.getElem?_eq_getElem hbound).symm, rfl⟩
  · rw [if_neg hg]
    exact ⟨h1, h2, h3, h4⟩

/-- Refresh preserves the navigation invariant. -/
theorem navInv_handleRefresh (s : AppNavState) (h : NavInv s) : NavInv (handleRefresh s) := by
  obtain ⟨h1, h2, h3, h4⟩ := h
  exact ⟨h1, h2, h3, h4⟩

/-- Every operation preserves the navigation invariant. -/
theorem navInv_applyNavOp (s : AppNavState) (op : NavOp) (h : NavInv s) :
    NavInv (applyNavOp s op) := by
  cases op with
  | navigate u => exact navInv_handleLinkClick s u h
  | back => exact navInv_handleBack s h
  | forward => exact navInv_handleForward s h
  | refresh => exact navInv_handleRefresh s h

/-- Any run from an invariant state stays in the invariant. -/
theorem navInv_runNavOps_of (ops : List NavOp) (s : AppNavState) (h : NavInv s) :
    NavInv (runNavOps s ops) := by
  induction ops generalizing s with
  | nil => exact h
  | cons op rest ih => exact ih (applyNavOp s op) (navInv_applyNavOp s op h)

/-- The initial state satisfies the navigation invariant. -/
theorem navInv_initial : NavInv initialNavState := by
  refine ⟨by decide, by decide, fun _ => rfl, fun hcontra => absurd hcontra (by decide)⟩

/-- Every reachable state satisfies the navigation invariant. -/
theorem navInv_reachable (ops : List NavOp) : NavInv (runNavOps initialNavState ops) :=
  navInv_runNavOps_of ops initialNavState navInv_initial

/-- C6: in every state reachable from the initial navigation state by
Navigate, Back, Forward (and Refresh) operations, the history index
lies within [-1, length - 1]. -/
theorem historyIndex_within_bounds (ops : List NavOp) :
    -1 ≤ (runNavOps initialNavState ops).historyIndex ∧
    (runNavOps initialNavState ops).historyIndex ≤
      ((runNavOps initialNavState ops).iframeHistory.length : Int) - 1 :=
  ⟨(navInv_reachable ops).1, (navInv_reachable ops).2.1⟩

/-- C10: in every reachable state of the navigation controller, the
active URL equals the history entry at the index whenever the index is
non-negative, and it is absent exactly when the index is -1. -/
theorem currentUrl_tracks_history (ops : List NavOp) :
    (0 ≤ (runNavOps initialNavState ops).historyIndex →
      (runNavOps initialNavState ops).currentUrl =
        (runNavOps initialNavState ops).iframeHistory[
          (runNavOps initialNavState ops).historyIndex.toNat]?) ∧
    ((runNavOps initialNavState ops).currentUrl = none ↔
      (runNavOps initialNavState ops).historyIndex = -1) := by
  obtain ⟨h1, _h2, h3, h4⟩ := navInv_reachable ops
  refine ⟨fun hpos => (h4 hpos).1, ⟨?_, h3⟩⟩
  intro hnone
  by_contra hne
  have hpos : 0 ≤ (runNavOps initialNavState ops).historyIndex := by omega
  have := (h4 hpos).2
  rw [hnone] at this
  exact Bool.noConfusion this

/-- Witness for C10 after one Navigate operation. -/
theorem currentUrl_tracks_history_witness :
    (runNavOps initialNavState [NavOp.navigate "a"]).currentUrl =
      (runNavOps initialNavState [NavOp.navigate "a"]).iframeHistory[
        (runNavOps initialNavState [NavOp.navigate "a"]).historyIndex.toNat]? ∧
    ((runNavOps initialNavState [NavOp.navigate "a"]).currentUrl = none ↔
      (runNavOps initialNavState [NavOp.navigate "a"]).historyIndex = -1) :=
  ⟨(currentUrl_tracks_history [NavOp.navigate "a"]).1 (by decide),
   (currentUrl_tracks_history [NavOp.navigate "a"]).2⟩

/-- Membership in the collected used-port list: the port is nonzero,
lies in the range, and is the public port of some binding. -/
theorem mem_usedPorts (containers : List DockerContainer) (lo hi q : Nat) :
    q ∈ usedPorts containers lo hi ↔
      q ≠ 0 ∧ lo ≤ q ∧ q ≤ hi ∧ publiclyBound containers q := by
  unfold usedPorts publiclyBound
  simp only [List.mem_flatMap, List.mem_filterMap]
  constructor
  · rintro ⟨c, hc, port, hport, hsome⟩
    cases hpp : port.PublicPort with
    | none => rw [hpp] at hsome; exact absurd hsome (by simp)
    | some pp =>
      rw [hpp] at hsome
      have hsome' : (if pp ≠ 0 ∧ lo ≤ pp ∧ pp ≤ hi then some pp else none) = some q := hsome
      by_cases hcond : pp ≠ 0 ∧ lo ≤ pp ∧ pp ≤ hi
      · rw [if_pos hcond] at hsome'
        obtain rfl : pp = q := by injection hsome'
        exact ⟨hcond.1, hcond.2.1, hcond.2.2, c, hc, port, hport, hpp⟩
      · rw [if_neg hcond] at hsome'
        exact absurd hsome' (by simp)
  · rintro ⟨hq0, hlo, hhi, c, hc, port, hport, hpp⟩
    refine ⟨c, hc, port, hport, ?_⟩
    rw [hpp]
    show (if q ≠ 0 ∧ lo ≤ q ∧ q ≤ hi then some q else none) = some q
    rw [if_pos ⟨hq0, hlo, hhi⟩]

/-- Characterization of the ascending scan: a returned port is the
first candidate not in the used list; none means every candidate is in
the used list. -/
theorem scanFree_spec (used : List Nat) :
    ∀ n lo : Nat,
      (∀ p, scanFree used lo n = some p →
        lo ≤ p ∧ p < lo + n ∧ used.contains p = false ∧
        ∀ q, lo ≤ q → q < p → used.contains q = true) ∧
      (scanFree used lo n = none → ∀ q, lo ≤ q → q < lo + n → used.contains q = true) := by
  intro n
  induction n with
  | zero =>
    intro lo
    exact ⟨fun p hp => Option.noConfusion hp, fun _ q hq1 hq2 => absurd hq2 (by omega)⟩
  | succ m ih =>
    intro lo
    constructor
    · intro p hp
      unfold scanFree at hp
      by_cases hc : used.contains lo = true
      · rw [if_pos hc] at hp
        obtain ⟨ha, hb, hfree, hbefore⟩ := (ih (lo + 1)).1 p hp
        refine ⟨by omega, by omega, hfree, ?_⟩
        intro q hq1 hq2
        by_cases hq : q = lo
        · rw [hq]; exact hc
        · exact hbefore q (by omega) hq2
      · rw [if_neg hc] at hp
        obtain rfl : lo = p := by injection hp
        exact ⟨le_refl lo, by omega, by simpa using hc,
          fun q hq1 hq2 => absurd hq2 (by omega)⟩
    · intro hp q hq1 hq2
      unfold scanFree at hp
      by_cases hc : used.contains lo = true
      · rw [if_pos hc] at hp
        by_cases hq : q = lo
        · rw [hq]; exact hc
        · exact (ih (lo + 1)).2 hp q (by omega) (by omega)
      · rw [if_neg hc] at hp
        exact Option.noConfusion hp

/-- Both endpoint clamps are at least one. -/
theorem one_le_clampPort (p : Int) : 1 ≤ clampPort p := by
  unfold clampPort
  have h := le_max_left (1 : Int) (min 65535 p)
  omega

/-- C1: the next-available-port computation clamps both endpoints into
[1, 65535], reorders them, and returns the smallest port of the
effective range that no container publishes; it returns none exactly
when every port of the range is published. -/
theorem nextAvailablePort_first_free (containers : List DockerContainer) (minPort maxPort : Int) :
    (∀ p, nextAvailablePort containers minPort maxPort = some p →
      actualMinPort minPort maxPort ≤ p ∧ p ≤ actualMaxPort minPort maxPort ∧
      ¬ publiclyBound containers p ∧
      ∀ q, actualMinPort minPort maxPort ≤ q → q < p → publiclyBound containers q) ∧
    (nextAvailablePort containers minPort maxPort = none →
      ∀ q, actualMinPort minPort maxPort ≤ q → q ≤ actualMaxPort minPort maxPort →
        publiclyBound containers q) := by
  have hlo1 : 1 ≤ actualMinPort minPort maxPort :=
    le_min (one_le_clampPort minPort) (one_le_clampPort maxPort)
  have hlohi : actualMinPort minPort maxPort ≤ actualMaxPort minPort maxPort := min_le_max
  have hspec := scanFree_spec
    (usedPorts containers (actualMinPort minPort maxPort) (actualMaxPort minPort maxPort))
    (actualMaxPort minPort maxPort + 1 - actualMinPort minPort maxPort)
    (actualMinPort minPort maxPort)
  have hcontains : ∀ q,
      ((usedPorts containers (actualMinPort minPort maxPort)
        (actualMaxPort minPort maxPort)).contains q = true) ↔
      (q ≠ 0 ∧ actualMinPort minPort maxPort ≤ q ∧ q ≤ actualMaxPort minPort maxPort ∧
        publiclyBound containers q) :=
    fun q => List.elem_iff.trans (mem_usedPorts containers _ _ q)
  constructor
  · intro p hp
    obtain ⟨ha, hb, hfree, hbefore⟩ := hspec.1 p hp
    refine ⟨ha, by omega, ?_, ?_⟩
    · intro hpb
      have hmem := (hcontains p).2 ⟨by omega, ha, by omega, hpb⟩
      rw [hfree] at hmem
      exact Bool.noConfusion hmem
    · intro q hq1 hq2
      exact ((hcontains q).1 (hbefore q hq1 hq2)).2.2.2
  · intro hp q hq1 hq2
    exact ((hcontains q).1 (hspec.2 hp q hq1 (by omega))).2.2.2

/-- Witness for C1 at the spec scenario: one container publishing 8080,
range 8081 to 8082, next available port 8081. -/
theorem nextAvailablePort_first_free_witness :
    actualMinPort 8081 8082 ≤ 8081 ∧ 8081 ≤ actualMaxPort 8081 8082 ∧
    ¬ publiclyBound [webContainer] 8081 ∧
    ∀ q, actualMinPort 8081 8082 ≤ q → q < 8081 → publiclyBound [webContainer] q :=
  (nextAvailablePort_first_free [webContainer] 8081 8082).1 8081 (by decide)

/-- The display component of the filter/sort effect is the sorted
filtered list in both branches. -/
theorem filterSortEffect_display (lc : String → String → Int) (containers : List DockerContainer)
    (searchTerm : String) (o : SortOption) :
    (filterSortEffect lc containers searchTerm o).2 =
      sortStep lc o (filterStep containers searchTerm) := by
  simp only [filterSortEffect]
  by_cases h : jsTrim searchTerm ≠ []
  · rw [if_pos h]
  · rw [if_neg h]

/-- C5 counterexample: with the whitespace search term, the filter step
keeps a container even though no name contains the term as a
case-insensitive substring, so the filtered result is not exactly the
matching containers. -/
theorem filterStep_whitespace_counterexample :
    abcContainer ∈ filterStep [abcContainer] " " ∧
    containerMatches " " abcContainer = false := by
  decide

/-- C5 amended: the filtered result is an order-preserving subset of
the input; a term that trims to the empty string yields the full input
list; any other term keeps exactly the containers with at least one
name containing the untrimmed term as a case-insensitive substring. -/
theorem filterStep_subset_and_matches (containers : List DockerContainer) (searchTerm : String) :
    (filterStep containers searchTerm).Sublist containers ∧
    (jsTrim searchTerm = [] → filterStep containers searchTerm = containers) ∧
    (jsTrim searchTerm ≠ [] →
      ∀ c, c ∈ filterStep containers searchTerm ↔
        c ∈ containers ∧ containerMatches searchTerm c = true) := by
  refine ⟨?_, ?_, ?_⟩
  · unfold filterStep
    by_cases h : jsTrim searchTerm ≠ []
    · rw [if_pos h]
      exact List.filter_sublist containers
    · rw [if_neg h]
  · intro h
    unfold filterStep
    rw [if_neg (by simp [h])]
  · intro h c
    unfold filterStep
    rw [if_pos h]
    exact List.mem_filter

/-- Witness for amended C5: the empty term keeps everything, and a
matching term is characterized by the substring test. -/
theorem filterStep_subset_and_matches_witness :
    filterStep [abcContainer] "" = [abcContainer] ∧
    (abcContainer ∈ filterStep [abcContainer] "b" ↔
      abcContainer ∈ [abcContainer] ∧ containerMatches "b" abcContainer = true) :=
  ⟨(filterStep_subset_and_matches [abcContainer] "").2.1 (by decide),
   (filterStep_subset_and_matches [abcContainer] "b").2.2 (by decide) abcContainer⟩

/-- C4 counterexample: with a blank search term the raw container list
itself is sorted in place, so a list whose creation timestamps are out
of the sort order is reordered by the derivation. -/
theorem filterSortEffect_mutates_raw_counterexample :
    (filterSortEffect (fun _ _ => 0) [oldContainer, newContainer] ""
      SortOption.createdAsc).1 ≠ [oldContainer, newContainer] := by
  decide

/-- C4 amended: the derivation leaves the raw list a permutation of
itself and leaves it fully unchanged whenever the search term does not
trim to the empty string; with a blank term the raw list is sorted in
place (same elements, possibly reordered). -/
theorem filterSortEffect_raw_perm (lc : String → String → Int)
    (containers : List DockerContainer) (searchTerm : String) (o : SortOption) :
    (filterSortEffect lc containers searchTerm o).1.Perm containers ∧
    (jsTrim searchTerm ≠ [] → (filterSortEffect lc containers searchTerm o).1 = containers) := by
  constructor
  · by_cases h : jsTrim searchTerm ≠ []
    · have heq : (filterSortEffect lc containers searchTerm o).1 = containers := by
        simp only [filterSortEffect]
        rw [if_pos h]
      rw [heq]
    · have heq : (filterSortEffect lc containers searchTerm o).1 =
          sortStep lc o (filterStep containers searchTerm) := by
        simp only [filterSortEffect]
        rw [if_neg h]
      have hfs : filterStep containers searchTerm = containers := by
        unfold filterStep
        rw [if_neg h]
      rw [heq, hfs]
      exact List.perm_insertionSort _ containers
  · intro h
    simp only [filterSortEffect]
    rw [if_pos h]

/-- Witness for amended C4: a non-blank term leaves the raw list
unchanged. -/
theorem filterSortEffect_raw_perm_witness :
    (filterSortEffect (fun _ _ => 0) [oldContainer, newContainer] "x"
      SortOption.createdAsc).1 = [oldContainer, newContainer] :=
  (filterSortEffect_raw_perm (fun _ _ => 0) [oldContainer, newContainer] "x"
    SortOption.createdAsc).2 (by decide)

/-- C3: the created-ascending option sorts the display list descending
by creation timestamp (newest first) and the created-descending option
sorts it ascending (oldest first); both orders are permutations of the
filtered list. -/
theorem createdSort_labels_inverted (lc : String → String → Int)
    (containers : List DockerContainer) (searchTerm : String) :
    (filterSortEffect lc containers searchTerm SortOption.createdAsc).2.Pairwise
      (fun a b => b.Created ≤ a.Created) ∧
    (filterSortEffect lc containers searchTerm SortOption.createdDesc).2.Pairwise
      (fun a b => a.Created ≤ b.Created) ∧
    (filterSortEffect lc containers searchTerm SortOption.createdAsc).2.Perm
      (filterStep containers searchTerm) ∧
    (filterSortEffect lc containers searchTerm SortOption.createdDesc).2.Perm
      (filterStep containers searchTerm) := by
  rw [filterSortEffect_display, filterSortEffect_display]
  unfold sortStep
  haveI hta : IsTotal DockerContainer
      (fun a b => sortComparator lc SortOption.createdAsc a b ≤ 0) :=
    ⟨fun a b => by simp only [sortComparator]; omega⟩
  haveI htra : IsTrans DockerContainer
      (fun a b => sortComparator lc SortOption.createdAsc a b ≤ 0) :=
    ⟨fun a b c hab hbc => by
      simp only [sortComparator] at hab hbc ⊢
      omega⟩
  haveI htd : IsTotal DockerContainer
      (fun a b => sortComparator lc SortOption.createdDesc a b ≤ 0) :=
    ⟨fun a b => by simp only [sortComparator]; omega⟩
  haveI htrd : IsTrans DockerContainer
      (fun a b => sortComparator lc SortOption.createdDesc a b ≤ 0) :=
    ⟨fun a b c hab hbc => by
      simp only [sortComparator] at hab hbc ⊢
      omega⟩
  refine ⟨?_, ?_, List.perm_insertionSort _ _, List.perm_insertionSort _ _⟩
  · exact (List.sorted_insertionSort _ _).imp fun hab => by
      simp only [sortComparator] at hab
      omega
  · exact (List.sorted_insertionSort _ _).imp fun hab => by
      simp only [sortComparator] at hab
      omega

/-- Index-aware filtering yields a sublist. -/
theorem filterWithIndex_sublist (pred : Port → Nat → Bool) :
    ∀ (l : List Port) (i : Nat), (filterWithIndex pred l i).Sublist l := by
  intro l
  induction l with
  | nil => intro i; exact List.Sublist.refl []
  | cons p ps ih =>
    intro i
    unfold filterWithIndex
    by_cases h : pred p i = true
    · rw [if_pos h]
      exact (ih (i + 1)).cons₂ p
    · rw [if_neg h]
      exact (ih (i + 1)).cons p

/-- Membership in an index-aware filter: the element occurs at some
position and the predicate holds for it at its shifted index. -/
theorem mem_filterWithIndex (pred : Port → Nat → Bool) :
    ∀ (l : List Port) (i : Nat) (q : Port),
      q ∈ filterWithIndex pred l i ↔
        ∃ j, l[j]? = some q ∧ pred q (i + j) = true := by
  intro l
  induction l with
  | nil =>
    intro i q
    simp [filterWithIndex]
  | cons p ps ih =>
    intro i q
    unfold filterWithIndex
    by_cases h : pred p i = true
    · rw [if_pos h]
      simp only [List.mem_cons, ih (i + 1) q]
      constructor
      · rintro (rfl | ⟨j, hget, hpred⟩)
        · exact ⟨0, by simp, by simpa using h⟩
        · exact ⟨j + 1, by simpa using hget,
            by rw [show i + (j + 1) = i + 1 + j by omega]; exact hpred⟩
      · rintro ⟨j, hget, hpred⟩
        cases j with
        | zero =>
          left
          have : some p = some q := by simpa using hget
          injection this with hpq
          exact hpq.symm
        | succ j =>
          right
          exact ⟨j, by simpa using hget,
            by rw [show i + 1 + j = i + (j + 1) by omega]; exact hpred⟩
    · rw [if_neg h]
      rw [ih (i + 1) q]
      constructor
      · rintro ⟨j, hget, hpred⟩
        exact ⟨j + 1, by simpa using hget,
          by rw [show i + (j + 1) = i + 1 + j by omega]; exact hpred⟩
      · rintro ⟨j, hget, hpred⟩
        cases j with
        | zero =>
          have : some p = some q := by simpa using hget
          injection this with hpq
          rw [Nat.add_zero] at hpred
          rw [hpq] at h
          exact absurd hpred h
        | succ j =>
          exact ⟨j, by simpa using hget,
            by rw [show i + 1 + j = i + (j + 1) by omega]; exact hpred⟩

/-- The duplicate test holds exactly when the port keys agree. -/
theorem portPairEq_key (p q : Port) : portPairEq p q = true ↔ portKey p = portKey q := by
  unfold portPairEq portKey
  simp [Prod.ext_iff]

/-- Ports with the same key are interchangeable on the right of the
duplicate test. -/
theorem portPairEq_congr (p q : Port) (h : portKey p = portKey q) (r : Port) :
    portPairEq r p = portPairEq r q := by
  have h1 : p.PublicPort = q.PublicPort := congrArg Prod.fst h
  have h2 : p.PrivatePort = q.PrivatePort := congrArg Prod.snd h
  unfold portPairEq
  rw [h1, h2]

/-- The duplicate test is reflexive. -/
theorem portPairEq_refl (p : Port) : portPairEq p p = true := by
  simp [portPairEq]

/-- C9: the displayed binding list is an order-stable sublist of the
input in which no two entries share a public/private pair, every input
binding has a representative with its pair, that representative is the
value at the first index carrying the pair, and the doubled binding of
the spec scenario displays as exactly one entry. -/
theorem dedupPorts_first_occurrence (ports : List Port) :
    (dedupPorts ports).Sublist ports ∧
    (dedupPorts ports).Pairwise (fun p q => portPairEq p q = false) ∧
    (∀ p ∈ ports, ∃ q ∈ dedupPorts ports, portPairEq q p = true) ∧
    (∀ q ∈ dedupPorts ports,
      ∃ k, ports.findIdx? (fun r => portPairEq r q) = some k ∧ ports[k]? = some q) ∧
    dedupPorts [dupBinding, dupBinding] = [dupBinding] := by
  refine ⟨filterWithIndex_sublist _ ports 0, ?_, ?_, ?_, by decide⟩
  · -- no two kept entries share a pair
    have main : ∀ (l : List Port) (i : Nat),
        (filterWithIndex
          (fun port k => jsFindIndex (fun p => portPairEq p port) ports == (k : Int)) l i).Pairwise
          (fun p q => portPairEq p q = false) := by
      intro l
      induction l with
      | nil => intro i; exact List.Pairwise.nil
      | cons p ps ih =>
        intro i
        unfold filterWithIndex
        by_cases h : (jsFindIndex (fun r => portPairEq r p) ports == (i : Int)) = true
        · rw [if_pos h]
          refine List.Pairwise.cons ?_ (ih (i + 1))
          intro q hq
          rw [mem_filterWithIndex] at hq
          obtain ⟨j, _hget, hpred⟩ := hq
          cases hval : portPairEq p q with
          | false => rfl
          | true =>
            have hkey : portKey p = portKey q := (portPairEq_key p q).1 hval
            have hfun : (fun r => portPairEq r p) = (fun r => portPairEq r q) :=
              funext (portPairEq_congr p q hkey)
            have h1 : jsFindIndex (fun r => portPairEq r p) ports = (i : Int) :=
              eq_of_beq h
            have h2 : jsFindIndex (fun r => portPairEq r q) ports = ((i + 1 + j : Nat) : Int) :=
              eq_of_beq hpred
            rw [hfun, h2] at h1
            have : (i + 1 + j : Nat) = i := by exact_mod_cast h1
            omega
        · rw [if_neg h]
          exact ih (i + 1)
    exact main ports 0
  · -- every input binding is represented
    intro p hp
    have hex : ∃ x, x ∈ ports ∧ (fun r => portPairEq r p) x = true := ⟨p, hp, portPairEq_refl p⟩
    have hfind := List.findIdx?_eq_some_of_exists hex
    rw [List.findIdx?_eq_some_iff_getElem] at hfind
    obtain ⟨hlen, hpred, hfirst⟩ := hfind
    refine ⟨ports[ports.findIdx fun r => portPairEq r p], ?_, hpred⟩
    rw [dedupPorts, mem_filterWithIndex]
    refine ⟨ports.findIdx fun r => portPairEq r p, List.getElem?_eq_getElem hlen, ?_⟩
    have hkey : portKey ports[ports.findIdx fun r => portPairEq r p] = portKey p :=
      (portPairEq_key _ p).1 hpred
    have hfun : (fun r => portPairEq r ports[ports.findIdx fun r => portPairEq r p]) =
        (fun r => portPairEq r p) :=
      funext (portPairEq_congr _ p hkey)
    have hfind2 : ports.findIdx? (fun r => portPairEq r p) =
        some (ports.findIdx fun r => portPairEq r p) :=
      List.findIdx?_eq_some_of_exists hex
    show (jsFindIndex (fun r =>
      portPairEq r ports[ports.findIdx fun r => portPairEq r p]) ports ==
        ((0 + ports.findIdx fun r => portPairEq r p : Nat) : Int)) = true
    rw [jsFindIndex, hfun, hfind2]
    simp
  · -- each kept entry is the first occurrence of its pair
    intro q hq
    rw [dedupPorts, mem_filterWithIndex] at hq
    obtain ⟨j, hget, hpred⟩ := hq
    have hidx : jsFindIndex (fun r => portPairEq r q) ports = ((0 + j : Nat) : Int) :=
      eq_of_beq hpred
    rw [jsFindIndex] at hidx
    cases hfind : ports.findIdx? fun r => portPairEq r q with
    | none =>
      rw [hfind] at hidx
      have hneg : (-1 : Int) = ((0 + j : Nat) : Int) := hidx
      omega
    | some k =>
      rw [hfind] at hidx
      have hkj : ((k : Nat) : Int) = ((0 + j : Nat) : Int) := hidx
      have : k = j := by
        have := Int.ofNat.inj hkj
        omega
      rw [this]
      exact ⟨j, rfl, hget⟩

/-- Witness for C9 on a two-element binding list with equal pairs. -/
theorem dedupPorts_first_occurrence_witness :
    (∃ q ∈ dedupPorts [dupBinding, dupBinding], portPairEq q dupBinding = true) ∧
    (∃ k, ([dupBinding, dupBinding].findIdx? fun r => portPairEq r dupBinding) = some k ∧
      [dupBinding, dupBinding][k]? = some dupBinding) :=
  ⟨(dedupPorts_first_occurrence [dupBinding, dupBinding]).2.2.1 dupBinding (by decide),
   (dedupPorts_first_occurrence [dupBinding, dupBinding]).2.2.2.1 dupBinding
     (by decide)⟩

end DockerPortViewer
